import Mathlib

/-!
Verification of the clino command-line engine (henvic/clino).

This file gives a shallow embedding of the Go source (clino.go first
version, exit.go, and the helper renderer) and proves or refutes the
frozen claims about it.  Go interface capabilities (Runnable, Parent,
Longer, Footer, FlagSet, PersistentFlagSet, Shorter) become `Option`
fields of `Cmd`; a capability a command does not implement is `none`.
Go errors become the inductive `GoErr`; a nil error is `none : Option
GoErr`.  Flag registration into a `flag.FlagSet` is modelled as an
ordered list of declarations, and `flag.FlagSet.Parse` is modelled by
`fsParse` following the standard library's parsing loop (flag values
are not stored since no claim observes them; bool-value validation is
kept because it affects control flow).  Panics are modelled by the
`RunResult.fatal` constructor.  Rendering is modelled as an ordered
list of `OutItem`s: each item is one `Fprintf` block of the helper,
with the exact usage-line text kept verbatim (tabwriter column
alignment is presentation only and is not modelled).
-/

namespace Clino

/-- Model of a Go error value as relevant to this package: plain message
errors, the `flag.ErrHelp` sentinel, `clino.ExitError` (which wraps an
inner error that may itself be nil, modelled by `nilErr`),
`*exec.ExitError` carrying a `syscall.WaitStatus` (whether the child
exited normally, and its status), and a generic wrapping error as
produced by `fmt.Errorf` with `%w`. -/
inductive GoErr where
  | msg (s : String)
  | errHelp
  | nilErr
  | exitError (code : Int) (wrapped : GoErr)
  | execExit (exited : Bool) (status : Nat)
  | wrapped (note : String) (inner : GoErr)
deriving DecidableEq

/-- One flag declaration registered into a flag set: its name, whether it
is a boolean flag (boolean flags need no argument), its default value
and usage text. -/
structure FlagDecl where
  name : String
  isBool : Bool
  defValue : String
  usage : String
deriving DecidableEq

/-- A command: the required name plus the optional capabilities of the Go
interfaces `Shorter`, `Longer`, `Footer`, `FlagSet`, `PersistentFlagSet`,
`Parent` and `Runnable`.  A `some` field means the command implements the
corresponding interface (possibly with an empty contribution). -/
inductive Cmd where
  | mk (nm : String) (short : Option String) (long : Option String)
       (foot : Option String)
       (flags : Option (List FlagDecl)) (pflags : Option (List FlagDecl))
       (children : Option (List Cmd))
       (runAct : Option (List String → Option GoErr))

/-- Name of a command (`Command.Name`). -/
def Cmd.name : Cmd → String
  | .mk nm _ _ _ _ _ _ _ => nm

/-- Short description, when the command implements `Shorter`. -/
def Cmd.short : Cmd → Option String
  | .mk _ s _ _ _ _ _ _ => s

/-- Long description, when the command implements `Longer`. -/
def Cmd.long : Cmd → Option String
  | .mk _ _ l _ _ _ _ _ => l

/-- Footer text, when the command implements `Footer`. -/
def Cmd.foot : Cmd → Option String
  | .mk _ _ _ f _ _ _ _ => f

/-- Local flag contribution, when the command implements `FlagSet`. -/
def Cmd.flags : Cmd → Option (List FlagDecl)
  | .mk _ _ _ _ fl _ _ _ => fl

/-- Persistent flag contribution, when the command implements
`PersistentFlagSet`. -/
def Cmd.pflags : Cmd → Option (List FlagDecl)
  | .mk _ _ _ _ _ pf _ _ => pf

/-- Child commands, when the command implements `Parent`. -/
def Cmd.children : Cmd → Option (List Cmd)
  | .mk _ _ _ _ _ _ ch _ => ch

/-- Runnable action, when the command implements `Runnable`.  The action
receives the residual arguments and returns the outcome error. -/
def Cmd.runAct : Cmd → Option (List String → Option GoErr)
  | .mk _ _ _ _ _ _ _ r => r

/-- Embedding of `getSubcommands`: the child list when the command
implements `Parent`, otherwise the empty list. -/
def getSubcommands (cmd : Cmd) : List Cmd :=
  match cmd.children with
  | some cs => cs
  | none => []

/-- Embedding of `isRunnable`. -/
def isRunnable (cmd : Cmd) : Bool :=
  cmd.runAct.isSome

/-- Embedding of `getCommand`: first command in the list whose name
matches. -/
def getCommand (commands : List Cmd) (nm : String) : Option Cmd :=
  match commands with
  | [] => none
  | c :: rest => if nm == c.name then some c else getCommand rest nm

/-- Loop of `walkCommand`: follow names down the tree, stopping at the
first name that matches no child; the result is the trail below the
root. -/
def walkFrom (commands : List Cmd) (names : List String) : List Cmd :=
  match names with
  | [] => []
  | nm :: rest =>
    match getCommand commands nm with
    | none => []
    | some c => c :: walkFrom (getSubcommands c) rest

/-- Embedding of `walkCommand`: the trail always starts with the root. -/
def walkCommand (root : Cmd) (commands : List Cmd) (names : List String) :
    List Cmd :=
  root :: walkFrom commands names

/-- Test used for `strings.HasPrefix(arg, "-")`: whether the first
character is a dash (stated on the character list so that it evaluates
by kernel reduction). -/
def headIsDash (s : String) : Bool :=
  match s.data with
  | c :: _ => c == '-'
  | [] => false

/-- Embedding of `getCommandArgs`: the leading run of arguments before the
first flag-prefixed token. -/
def getCommandArgs (args : List String) : List String :=
  match args with
  | [] => []
  | a :: rest => if headIsDash a then [] else a :: getCommandArgs rest

/-- Embedding of `skipHelpCommand`. -/
def skipHelpCommand (args : List String) : List String :=
  match args with
  | a :: rest => if a == "help" then rest else args
  | [] => args

/-- Embedding of `argumentsNonFlags` from the helper file (same loop as
`getCommandArgs`, defined separately in the source). -/
def argumentsNonFlags (args : List String) : List String :=
  match args with
  | [] => []
  | a :: rest => if headIsDash a then [] else a :: argumentsNonFlags rest

/-- Embedding of `commandNotFound`. -/
def commandNotFound (binary : String) (trail : List String) : GoErr :=
  .msg ("unknown command: '" ++ String.intercalate " " (binary :: trail) ++ "'")

/-- Panic message of `checkDuplicated` for the given duplicate trail. -/
def dupMessage (trail : List String) : String :=
  "command implemented multiple times: '" ++ String.intercalate " " trail ++ "'"

mutual

/-- Embedding of `checkDuplicated`: a `some` result is the panic message of
the first duplicate sibling name found in depth-first order; `none` means
the subtree is free of duplicate sibling names. -/
def checkDuplicated : Cmd → List String → Option String
  | .mk _ _ _ _ _ _ none _, _ => none
  | .mk _ _ _ _ _ _ (some cs) _, trail => checkDupChildren cs trail []

/-- Loop of `checkDuplicated` over one sibling group: `seen` holds the
names of the earlier siblings (the `m` map of the source). -/
def checkDupChildren : List Cmd → List String → List String → Option String
  | [], _, _ => none
  | c :: rest, trail, seen =>
    if seen.contains c.name then
      some (dupMessage (trail ++ [c.name]))
    else
      match checkDuplicated c (trail ++ [c.name]) with
      | some m => some m
      | none => checkDupChildren rest trail (c.name :: seen)

end

/-- Result of parsing a token list against a flag registry, modelling the
return value of `flag.FlagSet.Parse` under `flag.ContinueOnError`:
success with the residual arguments (`FlagSet.Args`), the `flag.ErrHelp`
sentinel, or a parse-error message. -/
inductive ParseOutcome where
  | ok (rest : List String)
  | help
  | err (message : String)
deriving DecidableEq

/-- Lookup in the registry's `formal` map.  The registry is an ordered
registration list; on a name registered more than once the last
registration wins, following the specification's collision semantics for
the external registry primitive (the Go standard library instead rejects
in-set redefinition; clino itself never rejects a redeclaration). -/
def findFlag : List FlagDecl → String → Option FlagDecl
  | [], _ => none
  | d :: rest, nm =>
    match findFlag rest nm with
    | some r => some r
    | none => if d.name == nm then some d else none

/-- Split a flag token body at the first `=` (the source scans from index
1; the first character was already checked not to be `=`), returning the
name part and, when present, the inline value (`-name=value`). -/
def splitEqAux : List Char → List Char × Option (List Char)
  | [] => ([], none)
  | c :: rest =>
    if c == '=' then ([], some rest)
    else
      match splitEqAux rest with
      | (pre, v) => (c :: pre, v)

/-- Strings accepted by `strconv.ParseBool`, used when a boolean flag is
given an inline value. -/
def validBool (v : String) : Bool :=
  ["1", "t", "T", "TRUE", "true", "True",
   "0", "f", "F", "FALSE", "false", "False"].contains v

/-- Model of `flag.FlagSet.Parse` (the `parseOne` loop of the Go standard
library): stop at the first token that is not a flag or at a bare `--`;
report `ErrHelp` for an undefined `-h`/`-help`/`--help`; report unknown
flags and missing arguments as errors; flag values themselves are not
recorded, except that an invalid inline boolean value is an error. -/
def fsParse (reg : List FlagDecl) : List String → ParseOutcome
  | [] => .ok []
  | s :: rest =>
    match s.data with
    | [] => .ok (s :: rest)
    | [_] => .ok (s :: rest)
    | c1 :: c2 :: cs =>
      if c1 != '-' then .ok (s :: rest)
      else if c2 == '-' && cs.isEmpty then .ok rest
      else
        match (if c2 == '-' then cs else c2 :: cs) with
        | [] => .err ("bad flag syntax: " ++ s)
        | b0 :: brest =>
          if b0 == '-' || b0 == '=' then .err ("bad flag syntax: " ++ s)
          else
            match splitEqAux brest with
            | (pre, v) =>
              let nm := String.mk (b0 :: pre)
              let valOpt := v.map String.mk
              match findFlag reg nm with
              | none =>
                if nm == "help" || nm == "h" then .help
                else .err ("flag provided but not defined: -" ++ nm)
              | some d =>
                if d.isBool then
                  match valOpt with
                  | some vs =>
                    if validBool vs then fsParse reg rest
                    else
                      .err ("invalid boolean value \"" ++ vs ++ "\" for -" ++
                        nm ++ ": parse error")
                  | none => fsParse reg rest
                else
                  match valOpt with
                  | some _ => fsParse reg rest
                  | none =>
                    match rest with
                    | _ :: rest2 => fsParse reg rest2
                    | [] => .err ("flag needs an argument: -" ++ nm)

/-- Model of `errors.As(err, &ee)` for the value type `clino.ExitError`:
walk the `Unwrap` chain and return the `Code` of the first `ExitError`
found.  `ExitError.Unwrap` returns the wrapped error; plain errors and
`*exec.ExitError` have no `Unwrap`. -/
def asExitError : GoErr → Option Int
  | .exitError c _ => some c
  | .wrapped _ inner => asExitError inner
  | _ => none

/-- Model of `errors.As(err, &xe)` for `*exec.ExitError`: walk the
`Unwrap` chain (through generic wrappers and through `ExitError`) and
return the `WaitStatus` of the first `*exec.ExitError` found. -/
def asExecExitError : GoErr → Option (Bool × Nat)
  | .execExit ex st => some (ex, st)
  | .wrapped _ inner => asExecExitError inner
  | .exitError _ w => asExecExitError w
  | _ => none

/-- Embedding of `ExitCode` from exit.go. -/
def ExitCode (err : Option GoErr) : Int :=
  match err with
  | none => 0
  | some e =>
    match asExitError e with
    | some c => c
    | none =>
      match asExecExitError e with
      | some (true, st) => (st : Int)
      | _ => 1

/-- One rendered block of the help output, in emission order: each
constructor is one `Fprintf`/`Fprintln` site of `helper.Run` (tabwriter
alignment is not modelled).  `commandList` carries each child's name and
short description; `flagsBlock` carries the registry the flag table is
printed from. -/
inductive OutItem where
  | longText (s : String)
  | blankLine
  | usage (line : String)
  | commandList (entries : List (String × String))
  | flagsBlock (decls : List FlagDecl)
  | hint (line : String)
  | footText (s : String)
deriving DecidableEq

/-- Embedding of the `helper` struct from the help renderer. -/
structure Helper where
  long : Option String
  foot : Option String
  commands : List Cmd
  binary : String
  trail : List String
  args : List String
  runnable : Bool
  usable : Bool
  fs : List FlagDecl

/-- Short description used in the command list: `Short` when implemented,
empty otherwise. -/
def shortOf (c : Cmd) : String :=
  match c.short with
  | some s => s
  | none => ""

/-- Body of `helper.Run` before its deferred function: the rendered items
in order, and the error the body returns (the missing-implementation
check, performed after rendering). -/
def helperBody (h : Helper) : List OutItem × Option GoErr :=
  let command0 := String.intercalate " " h.trail
  let xcmd := if command0 == "" then ""
    else if h.commands.length != 0 then " <command>" else ""
  let command := if command0 == "" then "<command>" else command0
  let out :=
    (match h.long with
     | some l => [OutItem.longText l]
     | none => []) ++
    (if h.long.isSome && h.usable then [OutItem.blankLine] else []) ++
    (if h.usable then
      [OutItem.usage ("Usage:  " ++ h.binary ++ " " ++ command ++ xcmd ++
        " [flags] [arguments]")]
     else []) ++
    (if h.commands.length != 0 then
      [OutItem.commandList (h.commands.map fun c => (c.name, shortOf c))]
     else []) ++
    (if h.usable then [OutItem.flagsBlock h.fs] else []) ++
    (if h.commands.length != 0 then
      [OutItem.hint ("Use \"" ++ h.binary ++ " help " ++ command ++ xcmd ++
        "\" for more information about that command.")]
     else []) ++
    (match h.foot with
     | some f => [OutItem.footText f]
     | none => [])
  if !h.usable && h.long.isNone && h.foot.isNone then
    (out, some (.msg ("command or topic '" ++ String.intercalate " " h.trail ++
      "' is missing implementation")))
  else
    (out, none)

/-- Embedding of `helper.Run`: the body followed by the deferred
unknown-command check, which fires only when the body returned nil, the
command is not runnable, and the leading non-flag arguments outnumber
the trail. -/
def helperRun (h : Helper) : List OutItem × Option GoErr :=
  match helperBody h with
  | (out, e) =>
    let na := argumentsNonFlags h.args
    if e.isNone && !h.runnable && na.length > h.trail.length then
      (out, some (commandNotFound h.binary (na.take (h.trail.length + 1))))
    else
      (out, e)

/-- Terminal command of a trail (`trail[len(trail)-1]`); the default is
never used since every trail starts with the root. -/
def lastCmd (root : Cmd) (trail : List Cmd) : Cmd :=
  trail.getLastD root

/-- Helper value assembled by `runHelp` for already-help-stripped
arguments. -/
def mkHelper (root : Cmd) (fs : List FlagDecl) (args : List String) :
    Helper :=
  let trail := walkCommand root (getSubcommands root) (getCommandArgs args)
  let cmd := lastCmd root trail
  { long := cmd.long
    foot := cmd.foot
    commands := getSubcommands cmd
    binary := root.name
    trail := (trail.map Cmd.name).drop 1
    args := args
    runnable := cmd.runAct.isSome
    usable := cmd.runAct.isSome || cmd.children.isSome
    fs := fs }

/-- Embedding of `Program.runHelp`: strip a leading `help` token, resolve
the trail again, and run the helper (`runHelp`'s inline strip is the same
computation as `skipHelpCommand`). -/
def runHelp (root : Cmd) (fs : List FlagDecl) (args : List String) :
    List OutItem × Option GoErr :=
  helperRun (mkHelper root fs (skipHelpCommand args))

/-- Trail resolved by `Program.runCommand` via `loadCommand`:
`walkCommand` over the leading non-flag tokens of the help-stripped
arguments. -/
def resolveTrail (root : Cmd) (args : List String) : List Cmd :=
  walkCommand root (getSubcommands root)
    (getCommandArgs (skipHelpCommand args))

/-- Flag registry composed for one invocation: the global contribution
(applied in `Run`), then the persistent contribution of every trail node
in trail order (the loop in `runCommand` ranges over the whole trail,
terminal node included), then the terminal node's local contribution. -/
def composedFS (root : Cmd) (g : List FlagDecl) (args : List String) :
    List FlagDecl :=
  let trail := resolveTrail root args
  g ++ (trail.flatMap fun c => (c.pflags.getD [])) ++
    (lastCmd root trail).flags.getD []

/-- Observable result of one dispatch: the rendered help items, the
arguments the runnable action was invoked with (`none` when the action
was never invoked), and the outcome error. -/
structure RunOut where
  out : List OutItem
  invoked : Option (List String)
  err : Option GoErr

/-- Embedding of `Program.runCommand`: resolve, compose flags, then
dispatch to help or to the runnable action. -/
def runCommand (root : Cmd) (g : List FlagDecl) (args : List String) :
    List FlagDecl × RunOut :=
  if (args.isEmpty && !isRunnable root) ||
      (!args.isEmpty && args.head? == some "help") then
    match runHelp root (composedFS root g args) args with
    | (o, e) => (composedFS root g args, ⟨o, none, e⟩)
  else
    match (lastCmd root (resolveTrail root args)).runAct with
    | some act =>
      match fsParse (composedFS root g args)
          (args.drop ((resolveTrail root args).length - 1)) with
      | .help =>
        match runHelp root (composedFS root g args) args with
        | (o, e) => (composedFS root g args, ⟨o, none, e⟩)
      | .err m => (composedFS root g args, ⟨[], none, some (.msg m)⟩)
      | .ok rest => (composedFS root g args, ⟨[], some rest, act rest⟩)
    | none =>
      match runHelp root (composedFS root g args) args with
      | (o, e) => (composedFS root g args, ⟨o, none, e⟩)

/-- Embedding of the `Program` struct.  `outputSet` records whether the
caller set the `Output` field (the writer identity is not otherwise
observable in this model); `fs` is the unexported flag-registry field. -/
structure Program where
  root : Option Cmd
  globalFlags : Option (List FlagDecl)
  outputSet : Bool
  fs : Option (List FlagDecl)

/-- Result of `Program.Run`: either a panic (missing root or duplicate
command names) or normal completion with the post-call program value and
the dispatch result. -/
inductive RunResult where
  | fatal (message : String)
  | normal (p : Program) (r : RunOut)

/-- Embedding of `Program.Run`: set the output if unset, panic on a
missing root, validate the tree, build the registry starting from the
global flags, dispatch, and store the composed registry in `fs`. -/
def Program.run (p : Program) (args : List String) : RunResult :=
  match p.root with
  | none => .fatal "root command not implemented"
  | some root =>
    match checkDuplicated root [root.name] with
    | some m => .fatal m
    | none =>
      match runCommand root (p.globalFlags.getD []) args with
      | (fs, r) =>
        .normal { p with outputSet := true, fs := some fs } r

/-- Specification-side predicate: the names form a full chain of child
commands from the given sibling list downwards. -/
def chainMatches : List Cmd → List String → Bool
  | _, [] => true
  | cs, nm :: rest =>
    match getCommand cs nm with
    | some c => chainMatches (getSubcommands c) rest
    | none => false

/-- Specification-side helper: the sibling list reached after following a
chain of names (empty when the chain breaks). -/
def currentAfter : List Cmd → List String → List Cmd
  | cs, [] => cs
  | cs, nm :: rest =>
    match getCommand cs nm with
    | some c => currentAfter (getSubcommands c) rest
    | none => []

theorem getCommand_mem {cs : List Cmd} {nm : String} {c : Cmd}
    (h : getCommand cs nm = some c) : c ∈ cs := by
  induction cs with
  | nil => simp [getCommand] at h
  | cons d rest ih =>
    rw [getCommand] at h
    by_cases hd : nm == d.name
    · simp [hd] at h
      simp [← h]
    · simp [hd] at h
      exact List.mem_cons_of_mem _ (ih h)

theorem walkFrom_chain (names : List String) (r : Cmd) :
    List.Chain (fun a b => b ∈ getSubcommands a) r
      (walkFrom (getSubcommands r) names) := by
  induction names generalizing r with
  | nil => exact List.Chain.nil
  | cons nm rest ih =>
    rw [walkFrom]
    cases hg : getCommand (getSubcommands r) nm with
    | none => exact List.Chain.nil
    | some c => exact List.Chain.cons (getCommand_mem hg) (ih c)

theorem walkFrom_length_of_chain {cs : List Cmd} {ns : List String}
    (h : chainMatches cs ns = true) : (walkFrom cs ns).length = ns.length := by
  induction ns generalizing cs with
  | nil => rfl
  | cons nm rest ih =>
    rw [chainMatches] at h
    rw [walkFrom]
    cases hg : getCommand cs nm with
    | none => rw [hg] at h; simp at h
    | some c =>
      rw [hg] at h
      simp [ih h]

theorem walkFrom_append_of_chain {cs : List Cmd} {ns : List String}
    (l : List String) (h : chainMatches cs ns = true) :
    walkFrom cs (ns ++ l) =
      walkFrom cs ns ++ walkFrom (currentAfter cs ns) l := by
  induction ns generalizing cs with
  | nil => rfl
  | cons nm rest ih =>
    rw [chainMatches] at h
    rw [List.cons_append, walkFrom, walkFrom, currentAfter]
    cases hg : getCommand cs nm with
    | none => rw [hg] at h; simp at h
    | some c =>
      rw [hg] at h
      simp [ih h]

theorem getCommandArgs_append {pre : List String}
    (rest : List String) (h : ∀ a ∈ pre, headIsDash a = false) :
    getCommandArgs (pre ++ rest) = pre ++ getCommandArgs rest := by
  induction pre with
  | nil => rfl
  | cons a pre' ih =>
    rw [List.cons_append, getCommandArgs]
    have ha : headIsDash a = false := h a (by simp)
    simp only [ha, if_false, Bool.false_eq_true]
    rw [ih fun x hx => h x (by simp [hx])]
    rfl

/-- C1: for every argument vector, command-path resolution is total and
deterministic (it is a function): the trail is non-empty, starts with
the root, and every later element is a declared child of the element
before it; and when the first `k` tokens are non-flag tokens forming a
chain of valid child names, stopped by the end of the vector, a
flag-prefixed token, or a non-matching token, the trail has length
`k + 1`, so exactly `k` tokens are consumed as path components. -/
theorem c1_resolution_deterministic_total (root : Cmd) (args : List String) :
    walkCommand root (getSubcommands root) (getCommandArgs args) ≠ [] ∧
    (walkCommand root (getSubcommands root) (getCommandArgs args)).head? =
      some root ∧
    List.Chain' (fun a b => b ∈ getSubcommands a)
      (walkCommand root (getSubcommands root) (getCommandArgs args)) ∧
    ∀ k, k ≤ args.length →
      (∀ a ∈ args.take k, headIsDash a = false) →
      chainMatches (getSubcommands root) (args.take k) = true →
      (args.drop k = [] ∨ ∃ a l, args.drop k = a :: l ∧
        (headIsDash a = true ∨
          getCommand (currentAfter (getSubcommands root) (args.take k)) a =
            none)) →
      (walkCommand root (getSubcommands root) (getCommandArgs args)).length =
        k + 1 := by
  refine ⟨by simp [walkCommand], by simp [walkCommand], ?_, ?_⟩
  · exact walkFrom_chain (getCommandArgs args) root
  · intro k hk hpre hchain hstop
    have hlen : (args.take k).length = k := List.length_take_of_le hk
    have hg : getCommandArgs (args.take k) = args.take k := by
      have h2 := @getCommandArgs_append (args.take k) [] hpre
      simpa [getCommandArgs] using h2
    rcases hstop with hnil | ⟨a, l, hdrop, hstopa⟩
    · have hga : getCommandArgs args = args.take k := by
        conv_lhs => rw [← List.take_append_drop k args, hnil,
          List.append_nil]
        exact hg
      rw [walkCommand, List.length_cons, hga,
        walkFrom_length_of_chain hchain, hlen]
    · by_cases hflag : headIsDash a
      · have hga : getCommandArgs args = args.take k := by
          conv_lhs => rw [← List.take_append_drop k args, hdrop]
          rw [getCommandArgs_append (a :: l) hpre, getCommandArgs]
          simp [hflag]
        rw [walkCommand, List.length_cons, hga,
          walkFrom_length_of_chain hchain, hlen]
      · have hflag' : headIsDash a = false := by
          simpa using hflag
        have hmiss : getCommand
            (currentAfter (getSubcommands root) (args.take k)) a = none := by
          rcases hstopa with hf | hm
          · rw [hf] at hflag'; simp at hflag'
          · exact hm
        have hga : getCommandArgs args =
            args.take k ++ (a :: getCommandArgs l) := by
          conv_lhs => rw [← List.take_append_drop k args, hdrop]
          rw [getCommandArgs_append (a :: l) hpre, getCommandArgs]
          simp [hflag']
        rw [walkCommand, List.length_cons, hga,
          walkFrom_append_of_chain _ hchain, List.length_append,
          walkFrom_length_of_chain hchain, hlen]
        have hwf : walkFrom (currentAfter (getSubcommands root) (args.take k))
            (a :: getCommandArgs l) = [] := by
          rw [walkFrom, hmiss]
        rw [hwf]
        simp

/-- C7: the exit-code mapping of exit.go: nil maps to 0; an error that is
or wraps an `ExitError` maps to its carried code; otherwise an error
whose unwrap chain reaches an `*exec.ExitError` of a normally exited
child maps to the child's exit status; every other non-nil error maps
to 1. -/
theorem c7_exit_code :
    ExitCode none = 0 ∧
    (∀ e c, asExitError e = some c → ExitCode (some e) = c) ∧
    (∀ e st, asExitError e = none → asExecExitError e = some (true, st) →
      ExitCode (some e) = (st : Int)) ∧
    (∀ e, asExitError e = none →
      (∀ st, asExecExitError e ≠ some (true, st)) →
      ExitCode (some e) = 1) := by
  refine ⟨rfl, ?_, ?_, ?_⟩
  · intro e c h
    simp [ExitCode, h]
  · intro e st h1 h2
    simp [ExitCode, h1, h2]
  · intro e h1 h2
    cases hx : asExecExitError e with
    | none => simp [ExitCode, h1, hx]
    | some p =>
      cases p with
      | mk ex st =>
        cases ex with
        | true => exact absurd hx (h2 st)
        | false => simp [ExitCode, h1, hx]

/-- Outcome error of a run observed from outside: `none` when `Run`
panicked, otherwise the (possibly nil) error it returned. -/
def runErr (p : Program) (args : List String) : Option (Option GoErr) :=
  match p.run args with
  | .normal _ r => some r.err
  | .fatal _ => none

/-- Rendered help items of a run, `none` when `Run` panicked. -/
def runOutItems (p : Program) (args : List String) : Option (List OutItem) :=
  match p.run args with
  | .normal _ r => some r.out
  | .fatal _ => none

/-- Arguments the runnable action was invoked with, `none` when `Run`
panicked, `some none` when the action was never invoked. -/
def runInvoked (p : Program) (args : List String) :
    Option (Option (List String)) :=
  match p.run args with
  | .normal _ r => some r.invoked
  | .fatal _ => none

/-- The decidably comparable fields of the program value after a run:
whether `Output` is set and the stored registry field. -/
def runObservable (p : Program) (args : List String) :
    Option (Bool × Option (List FlagDecl)) :=
  match p.run args with
  | .normal q _ => some (q.outputSet, q.fs)
  | .fatal _ => none

/-- The registry stored on the program after a run. -/
def runRegistry (p : Program) (args : List String) :
    Option (List FlagDecl) :=
  match p.run args with
  | .normal q _ => q.fs
  | .fatal _ => none

theorem run_eq_normal (p : Program) (root : Cmd) (args : List String)
    (hroot : p.root = some root)
    (hdup : checkDuplicated root [root.name] = none) :
    p.run args = .normal
      ⟨p.root, p.globalFlags, true,
        some (runCommand root (p.globalFlags.getD []) args).1⟩
      (runCommand root (p.globalFlags.getD []) args).2 := by
  cases p with
  | mk r g o f =>
    simp only at hroot
    simp only [Program.run, hroot, hdup]

theorem runCommand_fst (root : Cmd) (g : List FlagDecl)
    (args : List String) :
    (runCommand root g args).1 = composedFS root g args := by
  unfold runCommand
  split
  · rfl
  · split
    · split <;> rfl
    · rfl

theorem runCommand_snd_not_runnable (root : Cmd) (g : List FlagDecl)
    (args : List String)
    (hnr : (lastCmd root (resolveTrail root args)).runAct = none) :
    (runCommand root g args).2 =
      ⟨(runHelp root (composedFS root g args) args).1, none,
        (runHelp root (composedFS root g args) args).2⟩ := by
  unfold runCommand
  split
  · rfl
  · rw [hnr]

/-- Composition order the specification claims (claim C2), modelled from
the spec: global flags, then the persistent contribution of the trail
nodes from the root to the second-to-last node only, then the terminal
node's local contribution. -/
def composedFSClaimed (root : Cmd) (g : List FlagDecl)
    (args : List String) : List FlagDecl :=
  let trail := resolveTrail root args
  g ++ ((trail.dropLast).flatMap fun c => (c.pflags.getD [])) ++
    (lastCmd root trail).flags.getD []

/-- Program used to refute C2: a runnable root that contributes both a
persistent flag and a local flag, with one global flag. -/
def c2root : Cmd :=
  .mk "r" none none none
    (some [⟨"local", false, "", "local flag"⟩])
    (some [⟨"verbose", true, "false", "verbose mode"⟩])
    none (some fun _ => none)

/-- Program wrapper for `c2root`. -/
def c2prog : Program :=
  ⟨some c2root, some [⟨"globalflag", false, "none", "global flag"⟩],
    true, none⟩

/-- Counterexample to C2 as stated: the trail is just the root, so the
claimed order has no persistent contribution at all (the terminal node
is excluded), yet the registry composed by the code does contain the
root's persistent flag, between the global and the local ones. -/
theorem c2_counterexample :
    runRegistry c2prog [] =
      some [⟨"globalflag", false, "none", "global flag"⟩,
        ⟨"verbose", true, "false", "verbose mode"⟩,
        ⟨"local", false, "", "local flag"⟩] ∧
    composedFSClaimed c2root [⟨"globalflag", false, "none", "global flag"⟩]
        [] =
      [⟨"globalflag", false, "none", "global flag"⟩,
        ⟨"local", false, "", "local flag"⟩] ∧
    ([⟨"globalflag", false, "none", "global flag"⟩,
        ⟨"verbose", true, "false", "verbose mode"⟩,
        ⟨"local", false, "", "local flag"⟩] : List FlagDecl) ≠
      [⟨"globalflag", false, "none", "global flag"⟩,
        ⟨"local", false, "", "local flag"⟩] := by
  refine ⟨by decide, by decide, by decide⟩

/-- C2 amended: the registry composed for an invocation is, in order, the
global contribution, then the persistent contribution of every trail
node in trail order — the terminal node included, its persistent flags
coming after its ancestors' — and finally the terminal node's local
contribution.  Composition never rejects a redeclared name: the registry
is the full ordered registration list. -/
theorem c2_flag_composition_order (p : Program) (root : Cmd)
    (args : List String)
    (hroot : p.root = some root)
    (hdup : checkDuplicated root [root.name] = none) :
    runRegistry p args =
      some ((p.globalFlags.getD []) ++
        ((resolveTrail root args).flatMap fun c => (c.pflags.getD [])) ++
        (lastCmd root (resolveTrail root args)).flags.getD []) := by
  unfold runRegistry
  rw [run_eq_normal p root args hroot hdup, runCommand_fst]
  rfl

/-- Witness for the amended C2 at a concrete program. -/
theorem c2_flag_composition_order_witness :
    runRegistry c2prog [] =
      some ((c2prog.globalFlags.getD []) ++
        ((resolveTrail c2root []).flatMap fun c => (c.pflags.getD [])) ++
        (lastCmd c2root (resolveTrail c2root [])).flags.getD []) :=
  c2_flag_composition_order c2prog c2root [] rfl (by decide)

/-- Example command mirroring the `simpleCommand` test fixture: runnable,
with a long description and one string flag, no children. -/
def exSimple : Cmd :=
  .mk "simple" none (some "Example application.") none
    (some [⟨"name", false, "World", "your name"⟩]) none none
    (some fun _ => none)

/-- Example command mirroring the `unimplementedCommand` test fixture:
only a name. -/
def exUnimplemented : Cmd :=
  .mk "unimplemented" none none none none none none none

/-- Example command mirroring the `notRunnableCommand` test fixture: a
pure help topic. -/
def exNotRunnable : Cmd :=
  .mk "not-runnable" (some "command containing a help topic")
    (some "This is a not so long,\nmultiline help topic.")
    none none none none none

/-- Example root mirroring the `rootCommand` test fixture: not runnable,
with children, a long description and a footer. -/
def exRoot : Cmd :=
  .mk "app" none (some "Example application.")
    (some "Example: add anything here.") none none
    (some [exNotRunnable, exUnimplemented]) none

/-- Example of a runnable root that also has children, as the
`rootCommandWithFlags` test fixture. -/
def exRunnableParent : Cmd :=
  .mk "cmd" none none none none none (some [exNotRunnable]) (some fun _ => none)

/-- The usage lines among the rendered items, in order. -/
def usageItems (out : List OutItem) : List String :=
  out.filterMap fun i =>
    match i with
    | .usage l => some l
    | _ => none

theorem helperRun_fst (h : Helper) :
    (helperRun h).1 = (helperBody h).1 := by
  unfold helperRun
  rcases hb : helperBody h with ⟨out, e⟩
  dsimp only
  split <;> rfl

theorem usageItems_helperBody (h : Helper) :
    usageItems (helperBody h).1 =
      if h.usable then
        ["Usage:  " ++ h.binary ++ " " ++
          (if String.intercalate " " h.trail == "" then "<command>"
           else String.intercalate " " h.trail) ++
          (if String.intercalate " " h.trail == "" then ""
           else if h.commands.length != 0 then " <command>" else "") ++
          " [flags] [arguments]"]
      else [] := by
  unfold helperBody usageItems
  cases hl : h.long <;> cases hf : h.foot <;>
    by_cases hu : h.usable <;>
      by_cases hc : h.commands.length != 0 <;>
        by_cases he : String.intercalate " " h.trail == "" <;>
          simp [hl, hf, hu, hc, he, List.filterMap_append]

/-- C8 amended: the rendered help contains a usage line exactly when the
resolved node is runnable or implements children, and that line is
`Usage:  <root> <breadcrumb><xcmd> [flags] [arguments]` where an empty
breadcrumb (the node is the root) is replaced by the literal
`<command>` placeholder regardless of children, and for a non-empty
breadcrumb ` <command>` is appended exactly when the node's child list
is non-empty. -/
theorem c8_usage_line (root : Cmd) (fs : List FlagDecl)
    (args : List String) :
    usageItems (runHelp root fs args).1 =
      if (lastCmd root (resolveTrail root args)).runAct.isSome ||
          (lastCmd root (resolveTrail root args)).children.isSome then
        ["Usage:  " ++ root.name ++ " " ++
          (if String.intercalate " "
              (((resolveTrail root args).map Cmd.name).drop 1) == "" then
            "<command>"
           else String.intercalate " "
              (((resolveTrail root args).map Cmd.name).drop 1)) ++
          (if String.intercalate " "
              (((resolveTrail root args).map Cmd.name).drop 1) == "" then ""
           else if (getSubcommands
                (lastCmd root (resolveTrail root args))).length != 0 then
            " <command>"
           else "") ++
          " [flags] [arguments]"]
      else [] := by
  rw [runHelp, helperRun_fst, usageItems_helperBody]
  rfl

/-- Usage-line form claimed by C8, modelled from the spec: breadcrumb
after the root name, then the `<command>` placeholder exactly when the
node has children. -/
def c8ClaimedLine (binary : String) (crumb : List String)
    (hasChildren : Bool) : String :=
  "Usage:  " ++ binary ++ " " ++ String.intercalate " " crumb ++
    (if hasChildren then " <command>" else "") ++ " [flags] [arguments]"

/-- Program wrapper for `exSimple`. -/
def exSimpleProg : Program := ⟨some exSimple, none, true, none⟩

/-- Counterexample to C8 as stated: a runnable root with no children is
rendered with the `<command>` placeholder in its usage line (the empty
breadcrumb is replaced by the literal placeholder), while the claimed
form omits the placeholder for a node without children. -/
theorem c8_counterexample :
    runOutItems exSimpleProg ["-h"] =
      some [.longText "Example application.", .blankLine,
        .usage "Usage:  simple <command> [flags] [arguments]",
        .flagsBlock [⟨"name", false, "World", "your name"⟩]] ∧
    exSimple.children = none ∧
    "Usage:  simple <command> [flags] [arguments]" ≠
      c8ClaimedLine "simple" [] false :=
  ⟨by decide, rfl, by decide⟩

theorem helperBody_args_irrel (h : Helper) (a2 : List String) :
    helperBody { h with args := a2 } = helperBody h :=
  rfl

theorem argumentsNonFlags_idem (args : List String) :
    argumentsNonFlags (argumentsNonFlags args) = argumentsNonFlags args := by
  induction args with
  | nil => rfl
  | cons a rest ih =>
    rw [argumentsNonFlags]
    by_cases ha : headIsDash a
    · simp [ha, argumentsNonFlags]
    · simp only [ha, if_false, Bool.false_eq_true]
      rw [argumentsNonFlags, if_neg (by simp [ha]), ih]

/-- C10: one help rendering reports at most one error: a non-nil body
error (missing implementation) is returned as is and suppresses the
unknown-command check; the returned error only depends on the leading
non-flag arguments (tokens at or after the first flag-prefixed token
never trigger the unknown-command error); and when the resolved node is
runnable the deferred check never fires, so the error is exactly the
body's. -/
theorem c10_help_single_error (h : Helper) :
    (∀ e, (helperBody h).2 = some e → (helperRun h).2 = some e) ∧
    ((helperRun h).2 =
      (helperRun { h with args := argumentsNonFlags h.args }).2) ∧
    (h.runnable = true → (helperRun h).2 = (helperBody h).2) := by
  refine ⟨?_, ?_, ?_⟩
  · intro e he
    unfold helperRun
    rcases hb : helperBody h with ⟨out, e'⟩
    rw [hb] at he
    simp only at he
    simp [he]
  · unfold helperRun
    rw [helperBody_args_irrel h (argumentsNonFlags h.args)]
    rcases hb : helperBody h with ⟨out, e'⟩
    simp [argumentsNonFlags_idem]
  · intro hr
    unfold helperRun
    rcases hb : helperBody h with ⟨out, e'⟩
    simp [hr]

/-- Helper used to witness C10: a useless command reached past a valid
trail with an extra unmatched argument, so that both the missing
implementation and the unknown-command conditions hold. -/
def c10helper : Helper :=
  { long := none, foot := none, commands := [], binary := "app",
    trail := ["x"], args := ["x", "extra"], runnable := false,
    usable := false, fs := [] }

/-- Helper used to witness C10's runnable case. -/
def c10helperRunnable : Helper :=
  { long := none, foot := none, commands := [], binary := "app",
    trail := [], args := ["extra"], runnable := true,
    usable := true, fs := [] }

/-- Witness for C10: the missing-implementation error survives the
deferred check even though an unmatched extra argument is present, and a
runnable node yields the body's (nil) error despite the extra
argument. -/
theorem c10_help_single_error_witness :
    (helperRun c10helper).2 =
      some (.msg "command or topic 'x' is missing implementation") ∧
    (helperRun c10helperRunnable).2 = (helperBody c10helperRunnable).2 :=
  ⟨(c10_help_single_error c10helper).1 _ (by decide),
   (c10_help_single_error c10helperRunnable).2.2 rfl⟩

theorem helperRun_err_missing (h : Helper) (hu : h.usable = false)
    (hl : h.long = none) (hf : h.foot = none) :
    (helperRun h).2 = some (.msg ("command or topic '" ++
      String.intercalate " " h.trail ++ "' is missing implementation")) := by
  unfold helperRun helperBody
  simp [hu, hl, hf]

theorem helperRun_err_unknown (h : Helper) (hr : h.runnable = false)
    (hno : (!h.usable && h.long.isNone && h.foot.isNone) = false)
    (hlen : h.trail.length < (argumentsNonFlags h.args).length) :
    (helperRun h).2 = some (commandNotFound h.binary
      ((argumentsNonFlags h.args).take (h.trail.length + 1))) := by
  unfold helperRun helperBody
  simp [hr, hno, hlen]

/-- C4: whenever the resolved terminal command implements none of the four
capabilities (runnable action, children, long description, footer), the
run's outcome is the missing-implementation error naming the breadcrumb,
whichever mode (the argument vector may or may not carry the `help`
prefix; resolution strips it in both modes). -/
theorem c4_missing_implementation (p : Program) (root : Cmd)
    (args : List String)
    (hroot : p.root = some root)
    (hdup : checkDuplicated root [root.name] = none)
    (hrun : (lastCmd root (resolveTrail root args)).runAct = none)
    (hch : (lastCmd root (resolveTrail root args)).children = none)
    (hlong : (lastCmd root (resolveTrail root args)).long = none)
    (hfoot : (lastCmd root (resolveTrail root args)).foot = none) :
    runErr p args = some (some (.msg ("command or topic '" ++
      String.intercalate " "
        (((resolveTrail root args).map Cmd.name).drop 1) ++
      "' is missing implementation"))) := by
  unfold runErr
  rw [run_eq_normal p root args hroot hdup,
    runCommand_snd_not_runnable root _ args hrun]
  rw [runHelp]
  have hu : (mkHelper root (composedFS root (p.globalFlags.getD []) args)
      (skipHelpCommand args)).usable = false := by
    have he : (mkHelper root (composedFS root (p.globalFlags.getD []) args)
        (skipHelpCommand args)).usable =
        ((lastCmd root (resolveTrail root args)).runAct.isSome ||
          (lastCmd root (resolveTrail root args)).children.isSome) := rfl
    rw [he, hrun, hch]
    rfl
  rw [helperRun_err_missing _ hu hlong hfoot]
  rfl

/-- C3 amended: when the resolved terminal command is not runnable, has at
least one of children, long description or footer (so that help
rendering itself succeeds), and the leading non-flag tokens extend
strictly beyond the matched breadcrumb, the outcome is the
unknown-command error naming the binary plus every leading segment up to
and including the first unmatched one, in run-mode and help-mode
alike. -/
theorem c3_unknown_command (p : Program) (root : Cmd)
    (args : List String)
    (hroot : p.root = some root)
    (hdup : checkDuplicated root [root.name] = none)
    (hrun : (lastCmd root (resolveTrail root args)).runAct = none)
    (hsome : (lastCmd root (resolveTrail root args)).children.isSome = true ∨
      (lastCmd root (resolveTrail root args)).long.isSome = true ∨
      (lastCmd root (resolveTrail root args)).foot.isSome = true)
    (hlen : (((resolveTrail root args).map Cmd.name).drop 1).length <
      (argumentsNonFlags (skipHelpCommand args)).length) :
    runErr p args = some (some (commandNotFound root.name
      ((argumentsNonFlags (skipHelpCommand args)).take
        ((((resolveTrail root args).map Cmd.name).drop 1).length + 1)))) := by
  unfold runErr
  rw [run_eq_normal p root args hroot hdup,
    runCommand_snd_not_runnable root _ args hrun]
  rw [runHelp]
  have hr : (mkHelper root (composedFS root (p.globalFlags.getD []) args)
      (skipHelpCommand args)).runnable = false := by
    have he : (mkHelper root (composedFS root (p.globalFlags.getD []) args)
        (skipHelpCommand args)).runnable =
        (lastCmd root (resolveTrail root args)).runAct.isSome := rfl
    rw [he, hrun]
    rfl
  have hno : (!(mkHelper root (composedFS root (p.globalFlags.getD []) args)
        (skipHelpCommand args)).usable &&
      (mkHelper root (composedFS root (p.globalFlags.getD []) args)
        (skipHelpCommand args)).long.isNone &&
      (mkHelper root (composedFS root (p.globalFlags.getD []) args)
        (skipHelpCommand args)).foot.isNone) = false := by
    have he : (mkHelper root (composedFS root (p.globalFlags.getD []) args)
        (skipHelpCommand args)).usable =
        ((lastCmd root (resolveTrail root args)).runAct.isSome ||
          (lastCmd root (resolveTrail root args)).children.isSome) := rfl
    have hl : (mkHelper root (composedFS root (p.globalFlags.getD []) args)
        (skipHelpCommand args)).long =
        (lastCmd root (resolveTrail root args)).long := rfl
    have hf : (mkHelper root (composedFS root (p.globalFlags.getD []) args)
        (skipHelpCommand args)).foot =
        (lastCmd root (resolveTrail root args)).foot := rfl
    rw [he, hl, hf, hrun]
    rcases hsome with hs | hs | hs
    · simp [hs]
    · cases hx : (lastCmd root (resolveTrail root args)).long with
      | none => rw [hx] at hs; simp at hs
      | some v => simp [hx]
    · cases hx : (lastCmd root (resolveTrail root args)).foot with
      | none => rw [hx] at hs; simp at hs
      | some v => simp [hx]
  rw [helperRun_err_unknown _ hr hno hlen]
  rfl

/-- C5: once dispatch reaches the runnable terminal command (no `help`
prefix, and a non-empty vector or a runnable root), the result of
parsing the tokens after the consumed path against the composed registry
decides the outcome: a help request falls through to help rendering; any
other parse error is returned verbatim with no help rendered and the
action never invoked; a successful parse invokes the action on the
residual arguments and its return value is the outcome. -/
theorem c5_flag_parse_dispatch (p : Program) (root : Cmd)
    (args : List String) (act : List String → Option GoErr)
    (hroot : p.root = some root)
    (hdup : checkDuplicated root [root.name] = none)
    (hnh : args.head? ≠ some "help")
    (hne : args = [] → root.runAct.isSome = true)
    (hact : (lastCmd root (resolveTrail root args)).runAct = some act) :
    (fsParse (composedFS root (p.globalFlags.getD []) args)
        (args.drop ((resolveTrail root args).length - 1)) = .help →
      runOutItems p args =
        some (runHelp root (composedFS root (p.globalFlags.getD []) args)
          args).1 ∧
      runErr p args =
        some (runHelp root (composedFS root (p.globalFlags.getD []) args)
          args).2 ∧
      runInvoked p args = some none) ∧
    (∀ m, fsParse (composedFS root (p.globalFlags.getD []) args)
        (args.drop ((resolveTrail root args).length - 1)) = .err m →
      runOutItems p args = some [] ∧
      runErr p args = some (some (.msg m)) ∧
      runInvoked p args = some none) ∧
    (∀ rest, fsParse (composedFS root (p.globalFlags.getD []) args)
        (args.drop ((resolveTrail root args).length - 1)) = .ok rest →
      runOutItems p args = some [] ∧
      runErr p args = some (act rest) ∧
      runInvoked p args = some (some rest)) := by
  have hcond : ((args.isEmpty && !isRunnable root) ||
      (!args.isEmpty && args.head? == some "help")) = false := by
    cases args with
    | nil => simp [isRunnable, hne rfl]
    | cons a l =>
      have hne' : ¬ a = "help" := by
        intro hcontra
        exact hnh (by simp [hcontra])
      have hbeq : (some a == some "help") = false :=
        beq_eq_false_iff_ne.mpr (by simp [hne'])
      simp [hbeq]
  have hrc : runCommand root (p.globalFlags.getD []) args =
      (match fsParse (composedFS root (p.globalFlags.getD []) args)
          (args.drop ((resolveTrail root args).length - 1)) with
      | .help =>
        match runHelp root (composedFS root (p.globalFlags.getD []) args)
            args with
        | (o, e) => (composedFS root (p.globalFlags.getD []) args,
            ⟨o, none, e⟩)
      | .err m => (composedFS root (p.globalFlags.getD []) args,
          ⟨[], none, some (.msg m)⟩)
      | .ok rest => (composedFS root (p.globalFlags.getD []) args,
          ⟨[], some rest, act rest⟩)) := by
    unfold runCommand
    rw [hcond, hact]
    simp
  refine ⟨?_, ?_, ?_⟩
  · intro hp
    unfold runOutItems runErr runInvoked
    rw [run_eq_normal p root args hroot hdup, hrc, hp]
    rcases hh : runHelp root
        (composedFS root (p.globalFlags.getD []) args) args with ⟨o, e⟩
    simp
  · intro m hp
    unfold runOutItems runErr runInvoked
    rw [run_eq_normal p root args hroot hdup, hrc, hp]
    simp
  · intro rest hp
    unfold runOutItems runErr runInvoked
    rw [run_eq_normal p root args hroot hdup, hrc, hp]
    simp

/-- C9 amended: each invocation builds its registry from scratch — the
run's entire result is independent of the stored `fs` field and of
whether `Output` was set — and the engine never touches `Root` or
`GlobalFlags`; but the fresh registry is stored on the program's `fs`
field and `Output` is set when unset, so those two fields do change. -/
theorem c9_registry_scope (p : Program) (args : List String) :
    (∀ b0 b1 f0 f1,
      (Program.run ⟨p.root, p.globalFlags, b0, f0⟩ args) =
      (Program.run ⟨p.root, p.globalFlags, b1, f1⟩ args)) ∧
    (∀ q r, p.run args = .normal q r →
      q.root = p.root ∧ q.globalFlags = p.globalFlags ∧
      q.outputSet = true ∧ q.fs.isSome = true) := by
  constructor
  · intro b0 b1 f0 f1
    unfold Program.run
    rfl
  · intro q r hq
    unfold Program.run at hq
    cases hr : p.root with
    | none => rw [hr] at hq; exact absurd hq (by simp)
    | some root =>
      rw [hr] at hq
      dsimp only at hq
      cases hd : checkDuplicated root [root.name] with
      | some m => rw [hd] at hq; exact absurd hq (by simp)
      | none =>
        rw [hd] at hq
        dsimp only at hq
        rcases hc : runCommand root (p.globalFlags.getD []) args with ⟨fs, r'⟩
        rw [hc] at hq
        dsimp only at hq
        simp only [RunResult.normal.injEq] at hq
        rw [← hq.1]
        simp [hr]

/-- Witness for C7 at concrete errors: a bare `ExitError` with code 2, a
wrapped `ExitError` with code 3, a normally exited child process with
status 2, and a plain error. -/
theorem c7_exit_code_witness :
    ExitCode (some (.exitError 2 .nilErr)) = 2 ∧
    ExitCode (some (.wrapped "ctx" (.exitError 3 .nilErr))) = 3 ∧
    ExitCode (some (.execExit true 2)) = 2 ∧
    ExitCode (some (.msg "cannot find error code")) = 1 :=
  ⟨c7_exit_code.2.1 _ 2 rfl,
   c7_exit_code.2.1 _ 3 rfl,
   c7_exit_code.2.2.1 _ 2 rfl rfl,
   c7_exit_code.2.2.2 _ rfl (by intro st h; simp [asExecExitError] at h)⟩

end Clino

namespace Clino

/-- Program wrapper for `exRoot`. -/
def exRootProg : Program := ⟨some exRoot, none, true, none⟩

/-- Program wrapper for `exRunnableParent`. -/
def exRunnableParentProg : Program := ⟨some exRunnableParent, none, true, none⟩

/-- Program with an unset output and `exSimple` as root, used for C9. -/
def c9prog : Program := ⟨some exSimple, none, false, none⟩

/-- Witness for C1 on a concrete tree: the first token matches a child of
the root, the second token is flag-prefixed, so the trail has length
two. -/
theorem c1_resolution_witness :
    chainMatches (getSubcommands exRoot)
      ((["not-runnable", "-h"] : List String).take 1) = true ∧
    (walkCommand exRoot (getSubcommands exRoot)
      (getCommandArgs ["not-runnable", "-h"])).length = 1 + 1 :=
  ⟨by decide,
   (c1_resolution_deterministic_total exRoot ["not-runnable", "-h"]).2.2.2 1
     (by decide) (by decide) (by decide)
     (Or.inr ⟨"-h", [], rfl, Or.inl (by decide)⟩)⟩

/-- Counterexample to C3 as stated: a runnable root with children, given
an argument naming no child, runs its action on that argument instead of
reporting the unknown-command error — the claim's universally quantified
form fails for runnable terminal nodes. -/
theorem c3_counterexample :
    runErr exRunnableParentProg ["notfound"] = some none ∧
    runInvoked exRunnableParentProg ["notfound"] = some (some ["notfound"]) ∧
    some (none : Option GoErr) ≠
      some (some (commandNotFound "cmd" ["notfound"])) :=
  ⟨by decide, by decide, by decide⟩

/-- Witness for the amended C3 at the `rootCommand` fixture invoked with
`notfound x -v`. -/
theorem c3_unknown_command_witness :
    runErr exRootProg ["notfound", "x", "-v"] =
      some (some (.msg "unknown command: 'app notfound'")) := by
  rw [c3_unknown_command exRootProg exRoot ["notfound", "x", "-v"] rfl rfl
    rfl (Or.inl rfl) (by decide)]
  decide

/-- Witness for C4 at the `unimplemented` fixture command. -/
theorem c4_missing_implementation_witness :
    runErr exRootProg ["unimplemented"] =
      some (some
        (.msg "command or topic 'unimplemented' is missing implementation")) := by
  rw [c4_missing_implementation exRootProg exRoot ["unimplemented"] rfl rfl
    rfl rfl rfl rfl]
  decide

/-- Witness for C5 at the undefined-flag scenario: the parse error is
returned verbatim, nothing is rendered, the action is never invoked. -/
theorem c5_flag_parse_dispatch_witness :
    runOutItems exSimpleProg ["-undefined"] = some [] ∧
    runErr exSimpleProg ["-undefined"] =
      some (some (.msg "flag provided but not defined: -undefined")) ∧
    runInvoked exSimpleProg ["-undefined"] = some none :=
  (c5_flag_parse_dispatch exSimpleProg exSimple ["-undefined"]
      (fun _ => none) rfl rfl (by decide) (fun h => nomatch h) rfl).2.1
    "flag provided but not defined: -undefined" (by decide)

/-- Counterexample to C9 as stated: after a run, the program's `Output`
field went from unset to set and the fresh registry was stored on the
program's `fs` field, so the program value is not unchanged. -/
theorem c9_counterexample :
    c9prog.outputSet = false ∧ c9prog.fs = none ∧
    runObservable c9prog [] =
      some (true, some [⟨"name", false, "World", "your name"⟩]) ∧
    ((true, some [(⟨"name", false, "World", "your name"⟩ : FlagDecl)]) ≠
      ((false, none) : Bool × Option (List FlagDecl))) :=
  ⟨rfl, rfl, by decide, by decide⟩

/-- Witness for the amended C9: a concrete run completes normally with
`Root` and `GlobalFlags` untouched, the output set, and a registry
stored. -/
theorem c9_registry_scope_witness :
    ∃ q r, c9prog.run [] = .normal q r ∧
      q.root = c9prog.root ∧ q.globalFlags = c9prog.globalFlags ∧
      q.outputSet = true ∧ q.fs.isSome = true :=
  ⟨_, _, run_eq_normal c9prog exSimple [] rfl rfl,
    (c9_registry_scope c9prog []).2 _ _
      (run_eq_normal c9prog exSimple [] rfl rfl)⟩

end Clino

namespace Clino

/-- Specification-side predicate: the name list contains a repeated
name. -/
def namesHaveDup : List String → Bool
  | [] => false
  | n :: rest => rest.contains n || namesHaveDup rest

mutual

/-- Specification-side predicate: some sibling group in the subtree
contains two children with the same name. -/
def hasDupTree : Cmd → Bool
  | .mk _ _ _ _ _ _ none _ => false
  | .mk _ _ _ _ _ _ (some cs) _ =>
    namesHaveDup (cs.map Cmd.name) || hasDupList cs

/-- Some command of the list has a duplicate sibling group below it. -/
def hasDupList : List Cmd → Bool
  | [] => false
  | c :: rest => hasDupTree c || hasDupList rest

end

/-- Number of children of the sibling list carrying the given name. -/
def countName (cs : List Cmd) (d : String) : Nat :=
  (cs.map Cmd.name).count d

/-- Specification-side predicate: following the child names in `pre` from
the given command leads to a node whose sibling group repeats the name
`d`. -/
def dupAt (c : Cmd) : List String → String → Prop
  | [], d => 2 ≤ countName (getSubcommands c) d
  | nm :: rest, d =>
    ∃ ch, getCommand (getSubcommands c) nm = some ch ∧ dupAt ch rest d

/-- Invariant version of `dupAt` for a partially processed sibling group:
`seen` holds names of already processed earlier siblings. -/
def sublistDup (seen : List String) (cs : List Cmd) :
    List String → String → Prop
  | [], d => (d ∈ seen ∧ d ∈ cs.map Cmd.name) ∨ 2 ≤ countName cs d
  | nm :: rest, d =>
    nm ∉ seen ∧ ∃ ch, getCommand cs nm = some ch ∧ dupAt ch rest d

theorem sublistDup_nil_to_dupAt {nm : String} {s l f : Option String}
    {fl pf : Option (List FlagDecl)} {cs : List Cmd}
    {r : Option (List String → Option GoErr)}
    {pre : List String} {d : String}
    (h : sublistDup [] cs pre d) :
    dupAt (Cmd.mk nm s l f fl pf (some cs) r) pre d := by
  cases pre with
  | nil =>
    rcases h with ⟨hmem, _⟩ | hcount
    · simp at hmem
    · exact hcount
  | cons nm' rest =>
    obtain ⟨_, ch, hg, hd⟩ := h
    exact ⟨ch, hg, hd⟩

theorem sublistDup_cons {c : Cmd} {rest : List Cmd} {seen : List String}
    {pre : List String} {d : String}
    (h : sublistDup (c.name :: seen) rest pre d) :
    sublistDup seen (c :: rest) pre d := by
  cases pre with
  | nil =>
    rcases h with ⟨hseen, hnames⟩ | hcount
    · rcases List.mem_cons.mp hseen with heq | hseen'
      · refine Or.inr ?_
        rw [countName, List.map_cons, heq, List.count_cons_self]
        have h1 : 0 < (rest.map Cmd.name).count d :=
          List.count_pos_iff.mpr hnames
        rw [heq] at h1
        omega
      · exact Or.inl ⟨hseen', List.mem_cons_of_mem _ hnames⟩
    · refine Or.inr ?_
      rw [countName, List.map_cons, List.count_cons]
      rw [countName] at hcount
      omega
  | cons nm rest' =>
    obtain ⟨hns, ch, hg, hd⟩ := h
    have hne : nm ≠ c.name := fun he => hns (he ▸ List.mem_cons_self _ _)
    refine ⟨fun hs => hns (List.mem_cons_of_mem _ hs), ch, ?_, hd⟩
    rw [getCommand, if_neg (by simp [hne])]
    exact hg

theorem checkDuplicated_sound :
    ∀ (c : Cmd) (trail : List String), ∀ m,
      checkDuplicated c trail = some m →
      ∃ pre d, m = dupMessage (trail ++ pre ++ [d]) ∧ dupAt c pre d := by
  refine Clino.checkDuplicated.induct
    (fun c trail => ∀ m, checkDuplicated c trail = some m →
      ∃ pre d, m = dupMessage (trail ++ pre ++ [d]) ∧ dupAt c pre d)
    (fun cs trail seen => ∀ m, checkDupChildren cs trail seen = some m →
      ∃ pre d, m = dupMessage (trail ++ pre ++ [d]) ∧ sublistDup seen cs pre d)
    ?_ ?_ ?_ ?_ ?_ ?_
  · intro nm s l f fl pf r x m h
    rw [checkDuplicated] at h
    exact absurd h (by simp)
  · intro nm s l f fl pf cs r trail ih m h
    rw [checkDuplicated] at h
    obtain ⟨pre, d, hm, hs⟩ := ih m h
    exact ⟨pre, d, hm, sublistDup_nil_to_dupAt hs⟩
  · intro trail seen m h
    rw [checkDupChildren] at h
    exact absurd h (by simp)
  · intro c rest trail seen hseen m h
    rw [checkDupChildren, if_pos hseen] at h
    refine ⟨[], c.name, by simpa using h.symm, Or.inl ⟨?_, by simp⟩⟩
    simpa using hseen
  · intro c rest trail seen hns m0 hsome ih1 m h
    rw [checkDupChildren, if_neg hns, hsome] at h
    have hmm : m = m0 := by
      dsimp only at h
      exact (Option.some.inj h).symm
    subst hmm
    obtain ⟨pre, d, hm, hd⟩ := ih1 m hsome
    refine ⟨c.name :: pre, d, ?_, ?_, c, ?_, hd⟩
    · rw [hm]
      congr 1
      simp
    · intro hmem
      exact hns (by simpa using hmem)
    · rw [getCommand, if_pos (by simp)]
  · intro c rest trail seen hns hnone ih1 ih2 m h
    rw [checkDupChildren, if_neg hns, hnone] at h
    obtain ⟨pre, d, hm, hs⟩ := ih2 m h
    exact ⟨pre, d, hm, sublistDup_cons hs⟩

theorem checkDuplicated_complete :
    ∀ (c : Cmd) (trail : List String), hasDupTree c = true →
      (checkDuplicated c trail).isSome = true := by
  refine Clino.checkDuplicated.induct
    (fun c trail => hasDupTree c = true →
      (checkDuplicated c trail).isSome = true)
    (fun cs trail seen =>
      ((∃ d, d ∈ seen ∧ d ∈ cs.map Cmd.name) ∨
        namesHaveDup (cs.map Cmd.name) = true ∨ hasDupList cs = true) →
      (checkDupChildren cs trail seen).isSome = true)
    ?_ ?_ ?_ ?_ ?_ ?_
  · intro nm s l f fl pf r x h
    rw [hasDupTree] at h
    exact absurd h (by simp)
  · intro nm s l f fl pf cs r trail ih h
    rw [hasDupTree] at h
    rw [checkDuplicated]
    rcases Bool.or_eq_true_iff.mp h with hn | hl
    · exact ih (Or.inr (Or.inl hn))
    · exact ih (Or.inr (Or.inr hl))
  · intro trail seen h
    rcases h with ⟨d, _, hmem⟩ | hn | hl
    · simp at hmem
    · simp [namesHaveDup] at hn
    · simp [hasDupList] at hl
  · intro c rest trail seen hseen _
    rw [checkDupChildren, if_pos hseen]
    rfl
  · intro c rest trail seen hns m0 hsome ih1 _
    rw [checkDupChildren, if_neg hns, hsome]
    rfl
  · intro c rest trail seen hns hnone ih1 ih2 h
    rw [checkDupChildren, if_neg hns, hnone]
    apply ih2
    rcases h with ⟨d, hdseen, hdnames⟩ | hnd | hdl
    · rw [List.map_cons] at hdnames
      rcases List.mem_cons.mp hdnames with heq | hmem
      · refine absurd ?_ hns
        rw [← heq]
        simpa using hdseen
      · exact Or.inl ⟨d, List.mem_cons_of_mem _ hdseen, hmem⟩
    · rw [List.map_cons, namesHaveDup] at hnd
      rcases Bool.or_eq_true_iff.mp hnd with hc | hrest
      · exact Or.inl ⟨c.name, List.mem_cons_self _ _, by simpa using hc⟩
      · exact Or.inr (Or.inl hrest)
    · rw [hasDupList] at hdl
      rcases Bool.or_eq_true_iff.mp hdl with htree | hrest
      · exact absurd (ih1 htree) (by simp [hnone])
      · exact Or.inr (Or.inr hrest)

/-- C6: whenever some sibling group anywhere in the tree repeats a name,
every `Run` invocation panics with the same `command implemented multiple
times` message — the same for every argument vector, so the abort
happens before any argument is processed — and the message names the
space-joined path of an actual duplicate: root name, the chain of child
names leading to the offending group, and the duplicated name. -/
theorem c6_duplicate_abort (p : Program) (root : Cmd)
    (hroot : p.root = some root)
    (hdup : hasDupTree root = true) :
    ∃ m pre d, (∀ args, p.run args = .fatal m) ∧
      m = dupMessage (root.name :: (pre ++ [d])) ∧ dupAt root pre d := by
  have hs := checkDuplicated_complete root [root.name] hdup
  cases hc : checkDuplicated root [root.name] with
  | none => rw [hc] at hs; exact absurd hs (by simp)
  | some m =>
    obtain ⟨pre, d, hm, hd⟩ := checkDuplicated_sound root [root.name] m hc
    refine ⟨m, pre, d, ?_, ?_, hd⟩
    · intro args
      unfold Program.run
      rw [hroot]
      dsimp only
      rw [hc]
    · rw [hm]
      congr 1

/-- Root with the same child implemented twice, as the
`badRootCommand` test fixture. -/
def exBadRoot : Cmd :=
  .mk "bad" none none none none none (some [exSimple, exSimple]) none

/-- Program wrapper for `exBadRoot`. -/
def exBadProg : Program := ⟨some exBadRoot, none, true, none⟩

/-- Witness for C6: the duplicated tree aborts every invocation with the
message naming the duplicate path. -/
theorem c6_duplicate_abort_witness :
    hasDupTree exBadRoot = true ∧
    ∃ m pre d, (∀ args, exBadProg.run args = .fatal m) ∧
      m = dupMessage (exBadRoot.name :: (pre ++ [d])) ∧
      dupAt exBadRoot pre d :=
  ⟨by decide, c6_duplicate_abort exBadProg exBadRoot rfl (by decide)⟩

end Clino
